import Mathlib

/-!
# Verification of the graph-rewriting engine in `aesara/graph/opt.py`

Shallow embedding of the rewrite drivers of `src/aesara/graph/opt.py`:
`SeqOptimizer`, `MergeFeature`/`MergeOptimizer`, `PatternSub`,
`TopoOptimizer`, `LocalOptTracker` and `EquilibriumOptimizer`.

Graphs, rewriters and the host `FunctionGraph` are external collaborators of
`opt.py` (they live in `aesara/graph/fg.py` and `aesara/graph/basic.py`,
which are not part of the analysed source); they are represented by explicit
interface records whose fields stand for the operations `opt.py` consumes,
and by concrete finite instances where a claim needs a concrete run.
Variables, nodes, operators and types are identified by natural numbers.
While-loops of the Python source are embedded with an explicit fuel
parameter; theorems about completed runs either hold for every fuel or
exhibit a fuel at which the run has stabilised.
-/

namespace AesaraOpt

/-! ## SeqOptimizer (`opt.py` lines 247-322)

A sub-rewriter either returns a new graph state, raises an
`AssertionError`, or raises some other exception (identified by a code).
`SeqOptimizer.apply` runs the sub-rewriters in order; `except
AssertionError: raise` re-raises assertion failures, any other exception is
passed to the failure callback (when configured) after which the loop
`continue`s, otherwise it is re-raised. -/

inductive Exc where
  | assertionError : Exc
  | otherError : Nat → Exc
deriving DecidableEq, Repr

/-- The outcome of one sub-rewriter on a graph state: the new state, or a
raised exception. -/
abbrev SubRw (σ : Type) := σ → Except Exc σ

/-- Result of `SeqOptimizer.apply`: either an uncaught exception, or the
final state together with the indices of the sub-rewriters for which the
failure callback was invoked (in invocation order). -/
abbrev SeqResult (σ : Type) := Except Exc (σ × List Nat)

/-- The loop body of `SeqOptimizer.apply` (`opt.py` 274-293): iterate the
sub-rewriters; re-raise `AssertionError`; other exceptions invoke the
failure callback and continue when one is configured, else re-raise.
`i` is the index of the next sub-rewriter, `calls` the callback
invocations so far. -/
def seqApplyAux {σ : Type} (failureCallback : Bool) :
    List (SubRw σ) → σ → List Nat → Nat → SeqResult σ
  | [], s, calls, _ => .ok (s, calls)
  | o :: rest, s, calls, i =>
    match o s with
    | .ok s' => seqApplyAux failureCallback rest s' calls (i + 1)
    | .error .assertionError => .error .assertionError
    | .error e =>
      if failureCallback then
        seqApplyAux failureCallback rest s (calls ++ [i]) (i + 1)
      else
        .error e

/-- `SeqOptimizer.apply`: apply each sub-rewriter in declared order. -/
def seqApply {σ : Type} (failureCallback : Bool) (opts : List (SubRw σ)) (s : σ) :
    SeqResult σ :=
  seqApplyAux failureCallback opts s [] 0

/-! ## Association-list helpers

`AssocList` of the source, and Python `dict`s, are modelled as association
lists: `alookup` is `get`, `aset` replaces the binding or appends it. -/

def alookup {α β : Type} [DecidableEq α] : List (α × β) → α → Option β
  | [], _ => none
  | (k, v) :: rest, key => if k = key then some v else alookup rest key

def aset {α β : Type} [DecidableEq α] : List (α × β) → α → β → List (α × β)
  | [], key, v => [(key, v)]
  | (k, w) :: rest, key, v =>
    if k = key then (k, v) :: rest else (k, w) :: aset rest key v

/-! ## MergeFeature and MergeOptimizer (`opt.py` lines 490-934)

Variables and apply nodes are natural-number identifiers.  The host
`FunctionGraph` (external to `opt.py`) is an interface record
`MergeGraphI`; graph-independent object attributes (`owner`, `op`,
`outputs`, types, constancy) are plain functions, graph-dependent data
(residency, clients, the mutable `inputs` lists) take the graph state. -/

/-- The mode string of a scheduled replacement tuple: `"merge"` or
`"new_node"`. -/
inductive MergeMode where
  | merge : MergeMode
  | newNode : MergeMode
deriving DecidableEq, Repr, BEq

/-- One scheduled tuple `(old_output, new_output, mode)`. -/
structure Triple where
  old : Nat
  new : Nat
  mode : MergeMode
deriving DecidableEq, Repr, BEq

/-- One replacement plan (`pairs_` in the source): the tuples covering every
output of the node being replaced. -/
abbrev Plan := List Triple

/-- One candidate group (`pairs_list`): the plans for all replacement
candidates of one node. -/
abbrev Group := List Plan

/-- The `FunctionGraph` operations consumed by `MergeFeature` and
`MergeOptimizer.apply`.  Modelled from the spec: the graph interface of
§6 — accessors `variables`/`clients`, the `destroy_map` capability, type
equality with `convert_variable`, and the mutation primitives
`replace_all` (never raises) and `replace_all_validate` (`none` models a
raised `InconsistencyError`).  The replacement primitives also return the
candidate groups that the merge feature's callbacks scheduled while the
replacement ran. -/
structure MergeGraphI (σ : Type) where
  inVariables : σ → Nat → Bool
  owner : Nat → Option Nat
  opOf : Nat → Nat
  nodeOutputs : Nat → List Nat
  nodeInputs : σ → Nat → List Nat
  isCheckAndRaise : Nat → Bool
  hasDestroyHandler : Bool
  clients : σ → Nat → List (Option Nat × Nat)
  destroyMapNonempty : Nat → Bool
  destroyMapVals : Nat → List Nat
  typeOf : Nat → Nat
  convertOk : Nat → Nat → Bool
  isConstant : Nat → Bool
  replaceAll : σ → List (Nat × Nat) → σ × List Group
  replaceAllValidate : σ → List (Nat × Nat) → Option (σ × List Group)

/-- The input list of a node with `CheckAndRaise` inputs replaced by the
raising node's first input (`opt.py` 829-844). -/
def assertRemovedInputs {σ : Type} (G : MergeGraphI σ) (g : σ) (n : Nat) :
    List Nat :=
  (G.nodeInputs g n).map (fun i =>
    match G.owner i with
    | some m => if G.isCheckAndRaise m then (G.nodeInputs g m).headD i else i
    | none => i)

/-- The destroy-capability pre-check of `opt.py` 860-876: the union of the
two endpoints' client lists would contain more than one destroyer. -/
def destroyConflict {σ : Type} (G : MergeGraphI σ) (g : σ) (a b : Nat) :
    Bool :=
  let cl := G.clients g a ++ G.clients g b
  decide (1 < (cl.filter (fun ci =>
    match ci.1 with
    | some c => G.destroyMapNonempty c && (G.destroyMapVals c).contains ci.2
    | none => false)).length)

/-- Outcome of one iteration of the plan loop of `MergeOptimizer.apply`
(`opt.py` 807-907): the plan was skipped by a `continue`, its replacement
raised `InconsistencyError` (with the blacklisted pair of owners), or the
replacement was performed. -/
inductive PlanOutcome (σ : Type) where
  | skipped : PlanOutcome σ
  | failed : (Option Nat × Option Nat) → PlanOutcome σ
  | replaced : σ → List Group → List (Nat × Nat) → PlanOutcome σ

/-- The body of `for pairs_ in pairs_list` in `MergeOptimizer.apply`
(`opt.py` 807-900): residency re-check, input re-check with assert
removal, destroy-conflict pre-check, asymmetric `convert_variable`
swap, and the bulk replacement (`replace_all` when every old variable is
a `Constant`, else `replace_all_validate`). -/
def planStep {σ : Type} (G : MergeGraphI σ) (g : σ) (plan : Plan) :
    PlanOutcome σ :=
  match plan with
  | [] => .skipped
  | t0 :: _ =>
    let var := t0.old
    let cand := t0.new
    if ¬((t0.mode = MergeMode.newNode ∧ G.inVariables g var) ∨
          (G.inVariables g var ∧ G.inVariables g cand)) then
      .skipped
    else
      let pairs := plan.map (fun t => (t.old, t.new))
      let ownerCheck : Bool :=
        match G.owner var, G.owner cand with
        | some n, some m =>
          let inputsMatch : Bool :=
            (t0.mode == MergeMode.newNode) ||
              ((assertRemovedInputs G g n).zip (assertRemovedInputs G g m)).all
                (fun p => p.1 == p.2)
          if !inputsMatch then false
          else if G.hasDestroyHandler && destroyConflict G g var cand then false
          else true
        | _, _ => true
      if !ownerCheck then .skipped
      else
        let pairs₂ :=
          if pairs.length = 1 ∧ G.typeOf var ≠ G.typeOf cand ∧
              ¬(G.convertOk var cand = true) then
            [(cand, var)]
          else pairs
        if pairs₂.all (fun p => G.isConstant p.1) then
          let r := G.replaceAll g pairs₂
          .replaced r.1 r.2 pairs₂
        else
          match G.replaceAllValidate g pairs₂ with
          | some r => .replaced r.1 r.2 pairs₂
          | none =>
            .failed (G.owner (pairs₂.headD (0, 0)).1,
                     G.owner (pairs₂.headD (0, 0)).2)

/-- State of one `MergeOptimizer.apply` run: the graph, the feature's
`scheduled` LIFO and `blacklist`, the profile counters, and a trace of
the replacement attempts (`some pr` records a raised
`InconsistencyError` that blacklisted `pr`, `none` a performed
replacement). -/
structure MergeState (σ : Type) where
  g : σ
  sched : List Group
  blacklist : List (Option Nat × Option Nat)
  nbFail : Nat
  nbMerged : Nat
  nbConstant : Nat
  attempts : List (Plan × Option (Option Nat × Option Nat))
deriving DecidableEq, Repr

/-- The plan loop over one candidate group (`opt.py` 806-907).  `success`
is initialised to `True` once per group; a raised `InconsistencyError`
sets it to `False` for the rest of the group, and `if success: ... break`
stops the group only when no earlier plan of the group failed. -/
def groupStep {σ : Type} (G : MergeGraphI σ) :
    MergeState σ → List Plan → Bool → MergeState σ
  | s, [], _ => s
  | s, p :: rest, success =>
    match planStep G s.g p with
    | .skipped => groupStep G s rest success
    | .failed pr =>
      groupStep G
        { s with
          nbFail := s.nbFail + 1
          blacklist := s.blacklist ++ [pr]
          attempts := s.attempts ++ [(p, some pr)] } rest false
    | .replaced g' ns pairs =>
      let s' :=
        { s with
          g := g'
          sched := s.sched ++ ns
          attempts := s.attempts ++ [(p, none)] }
      if success then
        { s' with
          nbMerged := s'.nbMerged + pairs.length
          nbConstant :=
            if G.isConstant (pairs.headD (0, 0)).1 then s'.nbConstant + 1
            else s'.nbConstant }
      else groupStep G s' rest false

/-- The `while sched:` loop of `MergeOptimizer.apply` (`opt.py` 804-907):
pop one candidate group from the end of the LIFO and process it.  `fuel`
bounds the number of loop iterations. -/
def mergeLoop {σ : Type} (G : MergeGraphI σ) : Nat → MergeState σ → MergeState σ
  | 0, s => s
  | fuel + 1, s =>
    match s.sched.getLast? with
    | none => s
    | some grp =>
      mergeLoop G fuel (groupStep G { s with sched := s.sched.dropLast } grp true)

/-- `MergeOptimizer.apply`: run the scheduling loop, then clear the
feature's blacklist (`opt.py` 924-925) before returning. -/
def mergeApply {σ : Type} (G : MergeGraphI σ) (fuel : Nat) (s : MergeState σ) :
    MergeState σ :=
  let s' := mergeLoop G fuel s
  { s' with blacklist := [] }

/-- The feature-side indexing state of `MergeFeature` (`opt.py` 498-529),
plus the mutable `name` attributes of the graph's variables (an
association list; a variable absent from it has no name). -/
structure MFState where
  seenConstants : List Nat
  constSig : List (Nat × Nat)
  constSigInv : List (Nat × Nat)
  nodesSeen : List Nat
  noinputNodes : List Nat
  scheduled : List Group
  blacklist : List (Option Nat × Option Nat)
deriving DecidableEq, Repr

/-- The empty feature state installed by `MergeFeature.on_attach`. -/
def MFState.empty : MFState :=
  ⟨[], [], [], [], [], [], []⟩

/-- `MergeFeature.process_constant` (`opt.py` 567-583): canonicalize a
constant by `merge_signature`; a later constant with a seen signature is
scheduled to be replaced by the incumbent, copying the newcomer's name
onto the incumbent; a new signature records the newcomer. -/
def process_constant (sigOf : Nat → Nat) (st : MFState)
    (names : List (Nat × String)) (c : Nat) :
    MFState × List (Nat × String) :=
  if st.seenConstants.contains c then (st, names)
  else
    let sig := sigOf c
    match alookup st.constSigInv sig with
    | some otherC =>
      let names' :=
        match alookup names c with
        | some nm => aset names otherC nm
        | none => names
      ({ st with scheduled := st.scheduled ++ [[[⟨c, otherC, MergeMode.merge⟩]]] },
       names')
    | none =>
      ({ st with
          constSig := aset st.constSig c sig
          constSigInv := aset st.constSigInv sig c
          seenConstants := st.seenConstants ++ [c] }, names)

/-- `MergeFeature.process_node` (`opt.py` 585-740): candidate discovery
from the smaller client list of the first/last input (all no-input seen
nodes for an input-less node), identity input matching, blacklist
filtering, name propagation from the node's outputs to the candidate's,
and scheduling of one group holding every matching candidate's plan. -/
def process_node {σ : Type} (G : MergeGraphI σ) (g : σ) (st : MFState)
    (names : List (Nat × String)) (n : Nat) :
    MFState × List (Nat × String) :=
  if st.nodesSeen.contains n then (st, names)
  else
    let ins := G.nodeInputs g n
    let mergeCandidates : List Nat :=
      match ins with
      | [] => st.noinputNodes
      | i0 :: _ =>
        let aCl := G.clients g i0
        let bCl := G.clients g (ins.getLastD i0)
        let cl := if aCl.length < bCl.length then aCl else bCl
        cl.filterMap (fun ci =>
          match ci.1 with
          | some c => if st.nodesSeen.contains c then some c else none
          | none => none)
    let step := fun (acc : List Plan × List (Nat × String)) (cand : Nat) =>
      if cand = n then acc
      else if ins.length ≠ (G.nodeInputs g cand).length then acc
      else
        let inputsMatch := (ins.zip (G.nodeInputs g cand)).all
          (fun p => p.1 == p.2)
        if inputsMatch && (G.opOf n == G.opOf cand) then
          if st.blacklist.contains (some n, some cand) then acc
          else
            let pairs := (G.nodeOutputs n).zip (G.nodeOutputs cand)
            let nm' := pairs.foldl (fun m pr =>
              match alookup m pr.1 with
              | some s => aset m pr.2 s
              | none => m) acc.2
            (acc.1 ++ [pairs.map (fun pr => ⟨pr.1, pr.2, MergeMode.merge⟩)], nm')
        else acc
    let rc := mergeCandidates.foldl step ([], names)
    if rc.1.isEmpty then
      ({ st with
          nodesSeen := st.nodesSeen ++ [n]
          noinputNodes :=
            if ins.isEmpty then st.noinputNodes ++ [n] else st.noinputNodes },
       rc.2)
    else
      ({ st with scheduled := st.scheduled ++ [rc.1] }, rc.2)

/-- `MergeFeature.on_import` (`opt.py` 548-553): canonicalize the node's
constant inputs, then process the node itself. -/
def on_import {σ : Type} (G : MergeGraphI σ) (g : σ) (sigOf : Nat → Nat)
    (st : MFState) (names : List (Nat × String)) (n : Nat) :
    MFState × List (Nat × String) :=
  let r := (G.nodeInputs g n).foldl (fun acc c =>
    if G.isConstant c then process_constant sigOf acc.1 acc.2 c else acc)
    (st, names)
  process_node G g r.1 r.2 n

/-- The claim's view of one `MergeOptimizer.apply` run (used to state what
the spec asserts about group processing): every successful replacement
attempt is the last attempt of the run, and a successful attempt implies
a positive merge counter. -/
def groupShortCircuitClaim {σ : Type} (r : MergeState σ) : Bool :=
  (r.attempts.enum.all (fun ka =>
    ka.2.2.isSome || (ka.1 + 1 == r.attempts.length))) &&
  (!(r.attempts.any (fun a => a.2.isNone)) || decide (0 < r.nbMerged))

/-! ## EquilibriumOptimizer (`opt.py` lines 2349-2564)

A global, final or cleanup optimizer is abstracted as a function from the
graph state to the new state, the `ChangeTracker.changed` flag observed
during its application, and the list of nodes imported while it ran.
Count bookkeeping keys are `(kind, index)` pairs with kind `0` = global,
`1` = local, `2` = final, `3` = cleanup.  `rat` models
`max_use_ratio` (taken as a natural number). -/

/-- A whole-graph optimizer as observed through the attached
`ChangeTracker`: new graph, changed flag, imported nodes. -/
abbrev GOpt (σ : Type) := σ → σ × Bool × List Nat

/-- The part of the `EquilibriumOptimizer.apply` locals that the claims
need: the graph, the per-rewriter `global_process_count`, the running
`max_nb_nodes`, the `max_use_abort` flag, and the total number of
successful rewriter applications counted so far. -/
structure EqSt (σ : Type) where
  g : σ
  counts : List ((Nat × Nat) × Nat)
  maxNbNodes : Nat
  maxUseAbort : Bool
  applications : Nat
deriving DecidableEq, Repr

/-- Increment one rewriter's `global_process_count` and the application
total, then set `max_use_abort` when the count exceeds
`max_nb_nodes * rat` (`opt.py` 2420-2430 and 2502-2512). -/
def bumpChecked {σ : Type} (rat : Nat) (key : Nat × Nat) (s : EqSt σ) :
    EqSt σ :=
  let c := (alookup s.counts key).getD 0 + 1
  { s with
    counts := aset s.counts key c
    applications := s.applications + 1
    maxUseAbort := s.maxUseAbort || decide (c > s.maxNbNodes * rat) }

/-- Increment a cleanup rewriter's count; `apply_cleanup` performs no
`max_use` check (`opt.py` 2386-2401). -/
def bumpNoCheck {σ : Type} (key : Nat × Nat) (s : EqSt σ) : EqSt σ :=
  let c := (alookup s.counts key).getD 0 + 1
  { s with counts := aset s.counts key c, applications := s.applications + 1 }

/-- `apply_cleanup` (`opt.py` 2386-2401): apply each cleanup rewriter, in
declaration order, once; record which changed the graph.  Returns the
state, the accumulated changed flag, the nodes imported during the pass,
and the trace of applied cleanup indices. -/
def apply_cleanup_aux {σ : Type} (cleanups : List (GOpt σ)) (idx : Nat)
    (s : EqSt σ) (ch : Bool) : EqSt σ × Bool × List Nat × List Nat :=
  match cleanups with
  | [] => (s, ch, [], [])
  | c :: rest =>
    let r := c s.g
    let s₁ := { s with g := r.1 }
    let s₂ := if r.2.1 then bumpNoCheck (3, idx) s₁ else s₁
    let rec' := apply_cleanup_aux rest (idx + 1) s₂ (ch || r.2.1)
    (rec'.1, rec'.2.1, r.2.2 ++ rec'.2.2.1, idx :: rec'.2.2.2)

/-- `apply_cleanup` seen from its call sites: indices start at `0`. -/
def apply_cleanup {σ : Type} (cleanups : List (GOpt σ)) (s : EqSt σ)
    (ch : Bool) : EqSt σ × Bool × List Nat × List Nat :=
  apply_cleanup_aux cleanups 0 s ch

/-- The spec's fixed-point reading of a cleanup pass: no cleanup rewriter
changes the graph any further.  (Stated from the spec's words, to be
compared with what `apply_cleanup` establishes.) -/
def cleanupAtFixpoint {σ : Type} (cleanups : List (GOpt σ)) (g : σ) : Bool :=
  cleanups.all (fun c => !(c g).2.1)

/-- The global/final rewriter pass of an equilibrium iteration
(`opt.py` 2411-2431 and 2493-2513): apply each in order; on a change,
bump its count and perform the `max_use` check. -/
def globalPassAux {σ : Type} (rat : Nat) (kind : Nat) (gopts : List (GOpt σ))
    (idx : Nat) (s : EqSt σ) (ch : Bool) : EqSt σ × Bool :=
  match gopts with
  | [] => (s, ch)
  | o :: rest =>
    let r := o s.g
    let s₁ := { s with g := r.1 }
    let s₂ := if r.2.1 then bumpChecked rat (kind, idx) s₁ else s₁
    globalPassAux rat kind rest (idx + 1) s₂ (ch || r.2.1)

/-- Interface of one `EquilibriumOptimizer` run: the rewriter lists, the
local-rewriter dispatch (`local_tracker.get_trackers(node.op)` flattened
to a node-indexed list of local-rewriter indices), and the
`FunctionGraph` operations the driver consumes. -/
structure EqI (σ : Type) where
  globals : List (GOpt σ)
  finals : List (GOpt σ)
  cleanups : List (GOpt σ)
  trackersOf : Nat → List Nat
  localProcess : Nat → σ → Nat → Option (σ × List Nat)
  toposort : σ → List Nat
  resident : σ → Nat → Bool
  nbApplyNodes : σ → Nat
  rat : Nat

/-- The `for lopt in self.local_tracker.get_trackers(node.op)` loop
(`opt.py` 2468-2488): on a successful local rewrite, bump the count, run
a cleanup pass, perform the `max_use` check, and leave the loop when the
node left the graph.  The worklist `q` is kept with its head as the next
element to pop (the right end of the source's deque); imports are pushed
onto it unless they are the current node. -/
def nodeLoop {σ : Type} (E : EqI σ) (node : Nat) :
    List Nat → EqSt σ → List Nat → Bool → EqSt σ × List Nat × Bool
  | [], s, q, ch => (s, q, ch)
  | l :: rest, s, q, ch =>
    match E.localProcess l s.g node with
    | none => nodeLoop E node rest s q ch
    | some r =>
      let c := (alookup s.counts (1, l)).getD 0 + 1
      let s₁ : EqSt σ :=
        { s with
          g := r.1
          counts := aset s.counts (1, l) c
          applications := s.applications + 1 }
      let q₁ := (r.2.filter (fun m => m ≠ node)).foldl (fun qq m => m :: qq) q
      let cr := apply_cleanup E.cleanups s₁ true
      let q₂ := (cr.2.2.1.filter (fun m => m ≠ node)).foldl
        (fun qq m => m :: qq) q₁
      let s₂ :=
        { cr.1 with
          maxUseAbort :=
            cr.1.maxUseAbort || decide (c > cr.1.maxNbNodes * E.rat) }
      if E.resident s₂.g node then nodeLoop E node rest s₂ q₂ cr.2.1
      else (s₂, q₂, cr.2.1)

/-- The `while q:` worklist loop of the local phase (`opt.py` 2463-2488),
fuel-bounded: pop a node, skip it when it is no longer in the graph, and
run the tracked local rewriters on it. -/
def localLoop {σ : Type} (E : EqI σ) :
    Nat → List Nat → EqSt σ → Bool → EqSt σ × Bool
  | 0, _, s, ch => (s, ch)
  | _ + 1, [], s, ch => (s, ch)
  | fuel + 1, node :: q, s, ch =>
    if E.resident s.g node then
      let r := nodeLoop E node (E.trackersOf node) s q ch
      localLoop E fuel r.2.1 r.1 r.2.2
    else localLoop E fuel q s ch

/-- One iteration of the `while changed and not max_use_abort` loop
(`opt.py` 2403-2529): global rewriters, cleanup, toposort (updating
`max_nb_nodes` and hence `max_use`), the local worklist phase, final
rewriters, cleanup. -/
def eqIteration {σ : Type} (E : EqI σ) (lfuel : Nat) (s : EqSt σ) :
    EqSt σ × Bool :=
  let r₁ := globalPassAux E.rat 0 E.globals 0 s false
  let r₂ := apply_cleanup E.cleanups r₁.1 r₁.2
  let topo := E.toposort r₂.1.g
  let s₃ : EqSt σ :=
    { r₂.1 with maxNbNodes := max r₂.1.maxNbNodes topo.length }
  let r₄ := localLoop E lfuel topo.reverse s₃ r₂.2.1
  let r₅ := globalPassAux E.rat 2 E.finals 0 r₄.1 r₄.2
  let r₆ := apply_cleanup E.cleanups r₅.1 r₅.2
  (r₆.1, r₆.2.1)

/-- The outer equilibrium loop (`opt.py` 2403): iterate while the last
iteration changed the graph and the abort flag is unset. -/
def eqLoop {σ : Type} (E : EqI σ) (lfuel : Nat) :
    Nat → EqSt σ → Bool → EqSt σ
  | 0, s, _ => s
  | fuel + 1, s, changed =>
    if changed && !s.maxUseAbort then
      let r := eqIteration E lfuel s
      eqLoop E lfuel fuel r.1 r.2
    else s

/-- `EquilibriumOptimizer.apply` (`opt.py` 2349-2364): start with
`changed = True`, `max_use_abort = False`, `max_nb_nodes` the initial
node count. -/
def eqApply {σ : Type} (E : EqI σ) (lfuel fuel : Nat) (g₀ : σ) : EqSt σ :=
  eqLoop E lfuel fuel
    ⟨g₀, [], E.nbApplyNodes g₀, false, 0⟩ true

/-! ## TopoOptimizer (`opt.py` lines 2064-2118)

The wrapped local rewriter together with `process_node` and the
`FunctionGraph` are abstracted by `TopoI`: `process g n = some (g', imp)`
models a `process_node` call that returned `True` after importing the
nodes `imp`; `none` models a call that returned `False` (no
replacement). -/

/-- Interface of one `TopoOptimizer.apply` run. -/
structure TopoI (σ : Type) where
  toposort : σ → List Nat
  resident : σ → Nat → Bool
  process : σ → Nat → Option (σ × List Nat)

/-- Observable outcome of a `TopoOptimizer.apply` run: final graph, the
`nb` counter of successful rewrites, and the trace of nodes passed to
`process_node` in order. -/
structure TopoSt (σ : Type) where
  g : σ
  nb : Nat
  processed : List Nat
deriving DecidableEq, Repr

/-- The `while q:` loop of `TopoOptimizer.apply` (`opt.py` 2092-2102):
pop from the left for `in_to_out` (`outToIn = false`) or from the right
for `out_to_in`; skip nodes that are no longer in the graph; the attached
updater appends imported nodes to the right end unless `ignoreNewtrees`
or the import is the current node. -/
def topoLoop {σ : Type} (T : TopoI σ) (outToIn ignoreNewtrees : Bool) :
    Nat → List Nat → TopoSt σ → TopoSt σ
  | 0, _, s => s
  | fuel + 1, q, s =>
    let pop? : Option (Nat × List Nat) :=
      if outToIn then (q.getLast?).map (fun n => (n, q.dropLast))
      else
        match q with
        | [] => none
        | h :: t => some (h, t)
    match pop? with
    | none => s
    | some nq =>
      if T.resident s.g nq.1 then
        match T.process s.g nq.1 with
        | some r =>
          let q' :=
            if ignoreNewtrees then nq.2
            else nq.2 ++ r.2.filter (fun m => m ≠ nq.1)
          topoLoop T outToIn ignoreNewtrees fuel q'
            ⟨r.1, s.nb + 1, s.processed ++ [nq.1]⟩
        | none =>
          topoLoop T outToIn ignoreNewtrees fuel nq.2
            { s with processed := s.processed ++ [nq.1] }
      else topoLoop T outToIn ignoreNewtrees fuel nq.2 s

/-- `TopoOptimizer.apply` (`opt.py` 2075-2105): seed the worklist with the
toposort of the initial graph and run the loop. -/
def topoApply {σ : Type} (T : TopoI σ) (outToIn ignoreNewtrees : Bool)
    (fuel : Nat) (g₀ : σ) : TopoSt σ :=
  topoLoop T outToIn ignoreNewtrees fuel (T.toposort g₀) ⟨g₀, 0, []⟩

/-! ## LocalOptTracker (`opt.py` lines 1273-1322)

Rewriters are identified by numbers.  `get_trackers` is decorated with
`functools.lru_cache()` whose default `maxsize` is `128`: the cache is
modelled as a recency-ordered association list (head = most recently
used), a hit moves the entry to the front, a miss inserts at the front
and evicts the least recently used entry beyond 128.  The class
hierarchy query `functools._compose_mro(type(op), keys)` is supplied as
the `mro` function of the configuration. -/

/-- One entry of a rewriter's `tracks()` list: an `Op` instance or an
`Op` class. -/
inductive TrackSpec where
  | instanceT : Nat → TrackSpec
  | typeT : Nat → TrackSpec
deriving DecidableEq, Repr

/-- Operator-side configuration: the class of each op instance and the
linearization `functools._compose_mro` returns for a class. -/
structure TrackerCfg where
  classOf : Nat → Nat
  mro : Nat → List Nat

/-- `LocalOptTracker` state, including the `lru_cache` of
`get_trackers`. -/
structure Tracker where
  trackedInstances : List (Nat × List Nat)
  trackedTypes : List (Nat × List Nat)
  untrackedOpts : List Nat
  cache : List (Nat × List Nat)

/-- The tracker with no registered rewriters. -/
def Tracker.empty : Tracker := ⟨[], [], [], []⟩

/-- One `tracks()` entry registration step of
`LocalOptTracker.add_tracker`. -/
def add_tracker_one (t : Tracker) (rw : Nat) : TrackSpec → Tracker
  | .typeT c =>
    let l := (alookup t.trackedTypes c).getD [] ++ [rw]
    { t with trackedTypes := aset t.trackedTypes c l }
  | .instanceT op =>
    let l := (alookup t.trackedInstances op).getD [] ++ [rw]
    { t with trackedInstances := aset t.trackedInstances op l }

/-- `LocalOptTracker.add_tracker` (`opt.py` 1281-1292): file the rewriter
under each tracked instance/class, or as untracked when `tracks()` is
`None`. -/
def add_tracker (t : Tracker) (rw : Nat) (tracks : Option (List TrackSpec)) :
    Tracker :=
  match tracks with
  | none => { t with untrackedOpts := t.untrackedOpts ++ [rw] }
  | some ts => ts.foldl (fun t spec => add_tracker_one t rw spec) t

/-- `LocalOptTracker._find_impl` (`opt.py` 1294-1305): collect the
rewriters tracked by each class of the linearization, in order. -/
def find_impl (cfg : TrackerCfg) (t : Tracker) (cls : Nat) : List Nat :=
  (cfg.mro cls).foldr (fun ty acc => (alookup t.trackedTypes ty).getD [] ++ acc) []

/-- `LocalOptTracker.get_trackers` (`opt.py` 1307-1314) under
`functools.lru_cache()`: on a hit return the cached list (moving the
entry to the front); on a miss compute class matches, then instance
matches, then untracked rewriters, and insert the result, evicting the
least recently used entry when the cache exceeds 128 entries. -/
def get_trackers (cfg : TrackerCfg) (t : Tracker) (op : Nat) :
    List Nat × Tracker :=
  match alookup t.cache op with
  | some v =>
    (v, { t with cache := (op, v) :: t.cache.filter (fun e => e.1 ≠ op) })
  | none =>
    let v := find_impl cfg t (cfg.classOf op) ++
      (alookup t.trackedInstances op).getD [] ++ t.untrackedOpts
    let c := (op, v) :: t.cache
    (v, { t with cache := if c.length > 128 then c.dropLast else c })

/-! ## PatternSub (`opt.py` lines 1598-1774)

The pattern grammar and the unification environment are modelled from the
spec (§4.4 and the design note on the matcher): the `unify`/`reify` calls
of `transform` live in `aesara.graph.unify` and the `unification`
package, outside the analysed source.  `vars_between` lives in
`aesara.graph.basic`, also outside the source; it is modelled from the
spec's reachability-derived variable sets (§3): all variables on paths
between the graph inputs and the node's outputs, i.e. the ancestor cone
of the outputs, stopping at the graph inputs. -/



/-- Modelled from the spec: the pattern grammar of §4.4 — a tuple
`(op, subpattern*)`, a variable name, a specific constant, or a
`dict(pattern=…, constraint=…)` (constraints identified by a number). -/
inductive Pattern where
  | pvar : String → Pattern
  | pconst : Nat → Pattern
  | papp : Nat → List Pattern → Pattern
  | pconstr : Pattern → Nat → Pattern
deriving Repr

/-- The graph fragment a `PatternSub.transform` call reads: graph inputs,
per-variable owner (op of the owning node and that node's inputs),
client-list lengths, constant signatures, types, and for owned variables
the type list of all the owner's outputs. -/
structure PGraph where
  inputs : List Nat
  ownerOf : Nat → Option (Nat × List Nat)
  clientsLen : Nat → Nat
  constSigOf : Nat → Option Nat
  typeOfV : Nat → Nat
  ownerOutTypes : Nat → Option (List Nat)
  nodeOp : Nat → Nat
  nodeOutputs : Nat → List Nat

/-- Modelled from the spec: `vars_between(fgraph.inputs, node.outputs)` —
the ancestor cone of the outputs, stopping at the graph inputs
(fuel-bounded traversal; any fuel at least the number of reachable
variables is exact). -/
def vars_between_aux (P : PGraph) : Nat → List Nat → List Nat → List Nat
  | 0, _, acc => acc
  | _ + 1, [], acc => acc
  | fuel + 1, v :: rest, acc =>
    if acc.contains v then vars_between_aux P fuel rest acc
    else
      let acc' := acc ++ [v]
      if P.inputs.contains v then vars_between_aux P fuel rest acc'
      else
        match P.ownerOf v with
        | some oi => vars_between_aux P fuel (oi.2 ++ rest) acc'
        | none => vars_between_aux P fuel rest acc'

/-- `vars_between` from the node's outputs. -/
def vars_between (P : PGraph) (fuel : Nat) (outs : List Nat) : List Nat :=
  vars_between_aux P fuel outs []

mutual

/-- Modelled from the spec: unification of an input pattern against a
variable with an environment map `name → value` (§4.4 and the design
notes); `csat` decides the declared constraints. -/
def unifyP (P : PGraph) (csat : Nat → Nat → Bool) :
    Pattern → Nat → List (String × Nat) → Option (List (String × Nat))
  | .pvar x, v, s =>
    match alookup s x with
    | some w => if w = v then some s else none
    | none => some (s ++ [(x, v)])
  | .pconst c, v, s =>
    match P.constSigOf v, P.constSigOf c with
    | some sv, some sc =>
      if sv = sc ∧ P.typeOfV v = P.typeOfV c then some s else none
    | _, _ => none
  | .pconstr p cid, v, s =>
    if csat cid v then unifyP P csat p v s else none
  | .papp op args, v, s =>
    match P.ownerOf v with
    | some oi =>
      if oi.1 = op ∧ args.length = oi.2.length then
        unifyList P csat args oi.2 s
      else none
    | none => none

/-- Pointwise unification of subpatterns against the owner's inputs. -/
def unifyList (P : PGraph) (csat : Nat → Nat → Bool) :
    List Pattern → List Nat → List (String × Nat) →
      Option (List (String × Nat))
  | [], [], s => some s
  | [], _ :: _, _ => none
  | _ :: _, [], _ => none
  | p :: ps, v :: vs, s =>
    match unifyP P csat p v s with
    | some s' => unifyList P csat ps vs s'
    | none => none

end

/-- A reified output value: an existing variable of the graph, or a fresh
application of an operator to reified arguments. -/
inductive RVal where
  | existing : Nat → RVal
  | freshApp : Nat → List RVal → RVal
deriving Repr

mutual

/-- Modelled from the spec: reification of the output pattern under the
unification environment (§4.4); `mkOutType` gives the output type
`op.make_node` assigns to a fresh single-output application.  Returns the
value and its type. -/
def reifyP (P : PGraph) (mkOutType : Nat → List Nat → Nat)
    (s : List (String × Nat)) : Pattern → Option (RVal × Nat)
  | .pvar x => (alookup s x).map (fun v => (RVal.existing v, P.typeOfV v))
  | .pconst c => some (RVal.existing c, P.typeOfV c)
  | .pconstr p _ => reifyP P mkOutType s p
  | .papp op args =>
    match reifyArgs P mkOutType s args with
    | some rs => some (RVal.freshApp op rs.1, mkOutType op rs.2)
    | none => none

/-- Reification of an output pattern's argument list. -/
def reifyArgs (P : PGraph) (mkOutType : Nat → List Nat → Nat)
    (s : List (String × Nat)) : List Pattern → Option (List RVal × List Nat)
  | [] => some ([], [])
  | p :: rest =>
    match reifyP P mkOutType s p with
    | some rv =>
      match reifyArgs P mkOutType s rest with
      | some rs => some (rv.1 :: rs.1, rv.2 :: rs.2)
      | none => none
    | none => none
end

/-- `PatternSub.transform` with `allow_multiple_clients=False` and no
`get_nodes` hook (`opt.py` 1722-1774): the whole-cone multiple-clients
pre-check, the root operator test, unification, reification, and the
output type check (`ret.owner` outputs' types against `node.outputs`
types; for an ownerless result, a single output of equal type). -/
def patTransform (P : PGraph) (csat : Nat → Nat → Bool)
    (mkOutType : Nat → List Nat → Nat) (inP outP : Pattern) (rootOp : Nat)
    (fuel : Nat) (node : Nat) : Option RVal :=
  let cone := vars_between P fuel (P.nodeOutputs node)
  if cone.any (fun v => !(P.inputs.contains v) && decide (P.clientsLen v > 1))
  then none
  else if P.nodeOp node ≠ rootOp then none
  else
    match unifyP P csat inP ((P.nodeOutputs node).headD 0) [] with
    | none => none
    | some s =>
      match reifyP P mkOutType s outP with
      | none => none
      | some rt =>
        let nodeTypes := (P.nodeOutputs node).map P.typeOfV
        match rt.1 with
        | .existing v =>
          match P.ownerOutTypes v with
          | some ts => if ts = nodeTypes then some rt.1 else none
          | none =>
            if (P.nodeOutputs node).length = 1 ∧ [P.typeOfV v] = nodeTypes
            then some rt.1 else none
        | .freshApp op rs =>
          if [rt.2] = nodeTypes then some (RVal.freshApp op rs) else none

mutual

/-- The variables the claim counts as *intermediate values within the
matched subgraph*: variables standing at application positions of the
input pattern strictly below the root.  (Stated from the spec's words,
to be compared with the cone-wide check `transform` performs.) -/
def innerOne (P : PGraph) (root : Bool) : Pattern → Nat → List Nat
  | .pvar _, _ => []
  | .pconst _, _ => []
  | .pconstr p _, v => innerOne P root p v
  | .papp _ args, v =>
    (if root then [] else [v]) ++
      (match P.ownerOf v with
       | some oi => innerL P args oi.2
       | none => [])

def innerL (P : PGraph) : List Pattern → List Nat → List Nat
  | p :: ps, w :: ws => innerOne P false p w ++ innerL P ps ws
  | _, _ => []

end

/-- The intermediate values of the matched subgraph rooted at a node's
output, per the spec's reading. -/
def patInnerVars (P : PGraph) (inP : Pattern) (out : Nat) : List Nat :=
  innerOne P true inP out

/-! ## Concrete instances

Finite graphs and rewriter sets used to evaluate the embeddings on
concrete runs. -/

/-- A sub-rewriter list whose middle element raises: clean prefix. -/
def seqExPre : List (SubRw Nat) := [fun n => .ok (n + 1)]

/-- A sub-rewriter raising a non-assertion exception. -/
def seqExBad : SubRw Nat := fun _ => .error (.otherError 7)

/-- A sub-rewriter raising `AssertionError`. -/
def seqExAssert : SubRw Nat := fun _ => .error .assertionError

/-- Sub-rewriters after the raising one. -/
def seqExPost : List (SubRw Nat) := [fun n => .ok (n * 10)]

/-- A graph interface on which the validated replacement of `(1, 2)`
raises `InconsistencyError` while every other replacement succeeds
(graph states counted by a version number). -/
def mergeC2G : MergeGraphI Nat where
  inVariables := fun _ _ => true
  owner := fun _ => none
  opOf := fun _ => 0
  nodeOutputs := fun _ => []
  nodeInputs := fun _ _ => []
  isCheckAndRaise := fun _ => false
  hasDestroyHandler := false
  clients := fun _ _ => []
  destroyMapNonempty := fun _ => false
  destroyMapVals := fun _ => []
  typeOf := fun _ => 0
  convertOk := fun _ _ => true
  isConstant := fun _ => false
  replaceAll := fun g _ => (g, [])
  replaceAllValidate := fun g prs =>
    if prs = [(1, 2)] then none else some (g + 1, [])

/-- A plan whose replacement raises `InconsistencyError` on `mergeC2G`. -/
def planA : Plan := [⟨1, 2, MergeMode.merge⟩]

/-- A plan whose replacement succeeds on `mergeC2G`. -/
def planB : Plan := [⟨3, 4, MergeMode.merge⟩]

/-- Another plan whose replacement succeeds on `mergeC2G`. -/
def planC : Plan := [⟨5, 6, MergeMode.merge⟩]

/-- One scheduled group holding the three plans in insertion order. -/
def mergeC2Init : MergeState Nat :=
  ⟨0, [[planA, planB, planC]], [], 0, 0, 0, []⟩

/-- Two single-output nodes `10` and `11` with equal op and identical
inputs whose outputs `3` and `4` are each destroyed by a client (`20`
resp. `21`): the destroy-conflict pre-check fires on merging them. -/
def mergeC6G : MergeGraphI Nat where
  inVariables := fun _ _ => true
  owner := fun v => if v = 3 then some 10 else if v = 4 then some 11 else none
  opOf := fun _ => 5
  nodeOutputs := fun n => if n = 10 then [3] else if n = 11 then [4] else []
  nodeInputs := fun _ n => if n = 10 ∨ n = 11 then [1, 2] else []
  isCheckAndRaise := fun _ => false
  hasDestroyHandler := true
  clients := fun _ v =>
    if v = 3 then [(some 20, 0)] else if v = 4 then [(some 21, 0)] else []
  destroyMapNonempty := fun n => decide (n = 20 ∨ n = 21)
  destroyMapVals := fun n => if n = 20 ∨ n = 21 then [0] else []
  typeOf := fun _ => 0
  convertOk := fun _ _ => true
  isConstant := fun _ => false
  replaceAll := fun g _ => (g, [])
  replaceAllValidate := fun g _ => some (g + 1, [])

/-- The scheduled plan merging node `10`'s output into node `11`'s. -/
def planD : Plan := [⟨3, 4, MergeMode.merge⟩]

/-- Initial merge state for the destroy-conflict run. -/
def mergeC6Init : MergeState Nat :=
  ⟨0, [[planD]], [], 0, 0, 0, []⟩

/-- The constant-merge scenario graph: constants `1` and `2` with equal
merge signature feed nodes `10 = f(1)` (output `3`) and `11 = g(2)`
(output `4`); graph state `0` is the initial graph, state `1` the graph
after `replace_all [(2, 1)]` rebinds node `11`'s input and drops
variable `2`. -/
def mergeC8G : MergeGraphI Nat where
  inVariables := fun g v =>
    if g = 0 then [1, 2, 3, 4].contains v else [1, 3, 4].contains v
  owner := fun v => if v = 3 then some 10 else if v = 4 then some 11 else none
  opOf := fun n => if n = 10 then 50 else 51
  nodeOutputs := fun n => if n = 10 then [3] else if n = 11 then [4] else []
  nodeInputs := fun g n =>
    if n = 10 then [1]
    else if n = 11 then (if g = 0 then [2] else [1])
    else []
  isCheckAndRaise := fun _ => false
  hasDestroyHandler := false
  clients := fun g v =>
    if v = 1 then
      (if g = 0 then [(some 10, 0)] else [(some 10, 0), (some 11, 0)])
    else if v = 2 then (if g = 0 then [(some 11, 0)] else [])
    else if v = 3 then [(none, 0)]
    else if v = 4 then [(none, 1)]
    else []
  destroyMapNonempty := fun _ => false
  destroyMapVals := fun _ => []
  typeOf := fun _ => 0
  convertOk := fun _ _ => true
  isConstant := fun v => decide (v = 1 ∨ v = 2)
  replaceAll := fun g prs => if g = 0 ∧ prs = [(2, 1)] then (1, []) else (g, [])
  replaceAllValidate := fun g _ => some (g, [])

/-- `merge_signature`: constants `1` and `2` have the same signature. -/
def c8SigOf : Nat → Nat := fun v => if v = 1 ∨ v = 2 then 7 else 100 + v

/-- The newcomer constant `2` carries a name. -/
def c8Names : List (Nat × String) := [(2, "w")]

/-- The feature state and names after importing nodes `10` then `11`. -/
def c8AfterImports : MFState × List (Nat × String) :=
  let r := on_import mergeC8G 0 c8SigOf MFState.empty c8Names 10
  on_import mergeC8G 0 c8SigOf r.1 r.2 11

/-- The `MergeOptimizer.apply` run over what the feature scheduled. -/
def c8Run : MergeState Nat :=
  mergeApply mergeC8G 2
    ⟨0, c8AfterImports.1.scheduled, c8AfterImports.1.blacklist, 0, 0, 0, []⟩

/-- An equilibrium instance: one global rewriter that always changes a
one-node graph without growing it, `max_use_ratio = 3`, no local, final
or cleanup rewriters. -/
def eqC1 : EqI Nat where
  globals := [fun g => (g + 1, true, [])]
  finals := []
  cleanups := []
  trackersOf := fun _ => []
  localProcess := fun _ _ _ => none
  toposort := fun _ => [0]
  resident := fun _ _ => true
  nbApplyNodes := fun _ => 1
  rat := 3

/-- A cleanup rewriter that still changes the graph after one
application (it changes states `0` and `1`, and is at rest from `2`). -/
def cleanupsC3 : List (GOpt Nat) :=
  [fun n => if n < 2 then (n + 1, true, []) else (n, false, [])]

/-- An equilibrium bookkeeping state around graph state `0`. -/
def stC3 : EqSt Nat := ⟨0, [], 1, false, 0⟩

/-- A two-node graph where rewriting the output node `1` prunes its
ancestor `0` (graph state `1` after the rewrite). -/
def topoC9 : TopoI Nat where
  toposort := fun _ => [0, 1]
  resident := fun g n => !(decide (g = 1 ∧ n = 0))
  process := fun g n =>
    if n = 1 ∧ g = 0 then some (1, ([] : List Nat)) else none

/-- A two-node graph whose rewrite of node `0` changes the graph but
prunes nothing and imports nothing. -/
def topoW : TopoI Nat where
  toposort := fun _ => [0, 1]
  resident := fun _ _ => true
  process := fun g n => if n = 0 then some (g + 1, ([] : List Nat)) else none

/-- A graph where rewriting node `1` re-imports the already processed
node `0` (the graph state counts performed rewrites). -/
def topoC9b : TopoI Nat where
  toposort := fun _ => [0, 1]
  resident := fun _ _ => true
  process := fun g n =>
    if g = 0 ∧ n = 0 then some (1, ([] : List Nat))
    else if g = 1 ∧ n = 1 then some (2, [0])
    else none

/-- A graph whose rewrite of node `1` imports one fresh node: the state
is the next unused node identifier, so the import is the old frontier
and the frontier advances past it. -/
def topoWimp : TopoI Nat where
  toposort := fun _ => [0, 1]
  resident := fun _ _ => true
  process := fun g n => if n = 1 then some (g + 1, [g]) else none

/-- Tracker configuration: every op has class `0`, whose linearization is
itself. -/
def cfgC10 : TrackerCfg := ⟨fun _ => 0, fun c => [c]⟩

/-- Tracker with rewriter `1` registered for class `0`. -/
def t10a : Tracker := add_tracker Tracker.empty 1 (some [TrackSpec.typeT 0])

/-- First query of op `0`: caches its result. -/
def c10First : List Nat × Tracker := get_trackers cfgC10 t10a 0

/-- 128 queries of other ops: the LRU cache evicts op `0`'s entry. -/
def t10b : Tracker :=
  ((List.range 128).map (fun i => i + 1)).foldl
    (fun t op => (get_trackers cfgC10 t op).2) c10First.2

/-- Rewriter `2` registered for class `0` after the first query. -/
def t10c : Tracker := add_tracker t10b 2 (some [TrackSpec.typeT 0])

/-- Second query of op `0`, after eviction and registration. -/
def c10Second : List Nat × Tracker := get_trackers cfgC10 t10c 0

/-- A tracker whose cache holds an entry for op `5`. -/
def t10w : Tracker := ⟨[], [], [], [(5, [9])]⟩

/-- The pattern-match graph: node `1` (op `7`) has output `104` over
inputs `102` and `103`; `102 = op8(101)`, `101 = op9(100)`; `100` and
`103` are graph inputs.  The ancestor-cone variable `101` — outside the
subgraph matched by `(7, x, y)` — has two clients. -/
def pgC4 : PGraph where
  inputs := [100, 103]
  ownerOf := fun v =>
    if v = 104 then some (7, [102, 103])
    else if v = 102 then some (8, [101])
    else if v = 101 then some (9, [100])
    else none
  clientsLen := fun v => if v = 101 then 2 else 1
  constSigOf := fun _ => none
  typeOfV := fun _ => 0
  ownerOutTypes := fun v =>
    if v = 104 ∨ v = 102 ∨ v = 101 then some [0] else none
  nodeOp := fun n => if n = 1 then 7 else 0
  nodeOutputs := fun n => if n = 1 then [104] else []

/-- The same graph with `101` single-client. -/
def pgC4b : PGraph := { pgC4 with clientsLen := fun _ => 1 }

/-- The input pattern `(add, 'x', 'y')` with root op `7`. -/
def inPC4 : Pattern := Pattern.papp 7 [Pattern.pvar "x", Pattern.pvar "y"]

/-- The output pattern `'x'`. -/
def outPC4 : Pattern := Pattern.pvar "x"

/-- Splitting the sub-rewriter list: the suffix runs on the prefix's result. -/
theorem seqApplyAux_append {σ : Type} (cb : Bool) (pre rest : List (SubRw σ)) :
    ∀ (s : σ) (calls : List Nat) (i : Nat),
      seqApplyAux cb (pre ++ rest) s calls i =
        match seqApplyAux cb pre s calls i with
        | .ok (s', calls') => seqApplyAux cb rest s' calls' (i + pre.length)
        | .error e => .error e := by
  induction pre with
  | nil =>
    intro s calls i
    simp [seqApplyAux]
  | cons o pre ih =>
    intro s calls i
    have hlen : i + 1 + pre.length = i + (o :: pre).length := by
      simp only [List.length_cons]; omega
    simp only [List.cons_append, seqApplyAux]
    cases h : o s with
    | ok s' =>
      simp only [List.append_eq]
      rw [ih s' calls (i + 1), hlen]
    | error e =>
      cases e with
      | assertionError => rfl
      | otherError c =>
        cases cb with
        | false => simp
        | true =>
          simp only [List.append_eq]
          rw [ih s (calls ++ [i]) (i + 1), hlen]
          simp


/-! ## Claim C5 — SeqOptimizer failure policy -/

/-- C5: when a sub-rewriter of `SeqOptimizer.apply` raises, a configured
failure callback is invoked and the remaining sub-rewriters still run;
without a callback the exception propagates; an `AssertionError` always
propagates, callback or not. -/
theorem seq_failure_policy {σ : Type} (pre post : List (SubRw σ)) (o : SubRw σ)
    (s s₁ : σ) (calls₁ : List Nat) (c : Nat) :
    (seqApplyAux true pre s [] 0 = .ok (s₁, calls₁) →
      o s₁ = .error (.otherError c) →
      seqApply true (pre ++ o :: post) s =
        seqApplyAux true post s₁ (calls₁ ++ [pre.length]) (pre.length + 1)) ∧
    (seqApplyAux false pre s [] 0 = .ok (s₁, calls₁) →
      o s₁ = .error (.otherError c) →
      seqApply false (pre ++ o :: post) s = .error (.otherError c)) ∧
    (∀ cb, seqApplyAux cb pre s [] 0 = .ok (s₁, calls₁) →
      o s₁ = .error .assertionError →
      seqApply cb (pre ++ o :: post) s = .error .assertionError) := by
  refine ⟨?_, ?_, ?_⟩
  · intro h1 h2
    rw [seqApply, seqApplyAux_append true pre (o :: post) s [] 0, h1]
    simp [seqApplyAux, h2]
  · intro h1 h2
    rw [seqApply, seqApplyAux_append false pre (o :: post) s [] 0, h1]
    simp [seqApplyAux, h2]
  · intro cb h1 h2
    rw [seqApply, seqApplyAux_append cb pre (o :: post) s [] 0, h1]
    simp [seqApplyAux, h2]

/-- Witness for C5: a concrete three-element rewriter list exercising the
callback continuation, the re-raise, and the assertion pass-through. -/
theorem seq_failure_policy_witness :
    seqApply true (seqExPre ++ seqExBad :: seqExPost) 0 =
      seqApplyAux true seqExPost 1 ([] ++ [seqExPre.length])
        (seqExPre.length + 1) ∧
    seqApply false (seqExPre ++ seqExBad :: seqExPost) 0 =
      .error (.otherError 7) ∧
    seqApply true (seqExPre ++ seqExAssert :: seqExPost) 0 =
      .error .assertionError := by
  refine ⟨?_, ?_, ?_⟩
  · exact (seq_failure_policy seqExPre seqExPost seqExBad 0 1 [] 7).1 rfl rfl
  · exact (seq_failure_policy seqExPre seqExPost seqExBad 0 1 [] 7).2.1 rfl rfl
  · exact (seq_failure_policy seqExPre seqExPost seqExAssert 0 1 [] 7).2.2
      true rfl rfl

/-! ## Claim C2 — MergeOptimizer group consumption -/

/-- Counterexample to C2: in the run over the group
`[planA, planB, planC]`, `planA`'s replacement raises, `planB`'s
replacement then succeeds, yet `planC` is still attempted afterwards and
the merge counter stays `0` — the group-level `success` flag is never
reset, so a success after a failure neither short-circuits nor counts.
`groupShortCircuitClaim` is the claim's reading of the run. -/
theorem merge_group_short_circuit_cex :
    groupShortCircuitClaim (mergeApply mergeC2G 3 mergeC2Init) = false ∧
    (mergeApply mergeC2G 3 mergeC2Init).attempts =
      [(planA, some (none, none)), (planB, none), (planC, none)] ∧
    (mergeApply mergeC2G 3 mergeC2Init).nbMerged = 0 := by
  refine ⟨by decide, by decide, by decide⟩

/-- C2 (amended): candidate groups are popped from the end of the LIFO;
within a group plans run in insertion order, and a plan whose
replacement succeeds short-circuits the group and increments the merge
counter only when no earlier plan of the group raised
`InconsistencyError` — once a plan has failed, the merge counter can no
longer grow in that group. -/
theorem merge_group_processing {σ : Type} (G : MergeGraphI σ) :
    (∀ (fuel : Nat) (s : MergeState σ) (front : List Group) (grp : Group),
      s.sched = front ++ [grp] →
      mergeLoop G (fuel + 1) s =
        mergeLoop G fuel (groupStep G { s with sched := front } grp true)) ∧
    (∀ (s : MergeState σ) (pre post : List Plan) (p : Plan) (g' : σ)
      (ns : List Group) (pairs : List (Nat × Nat)),
      (∀ q ∈ pre, planStep G s.g q = PlanOutcome.skipped) →
      planStep G s.g p = PlanOutcome.replaced g' ns pairs →
      groupStep G s (pre ++ p :: post) true =
        { s with
          g := g'
          sched := s.sched ++ ns
          attempts := s.attempts ++ [(p, none)]
          nbMerged := s.nbMerged + pairs.length
          nbConstant :=
            if G.isConstant (pairs.headD (0, 0)).1 then s.nbConstant + 1
            else s.nbConstant }) ∧
    (∀ (s : MergeState σ) (plans : List Plan),
      (groupStep G s plans false).nbMerged = s.nbMerged) := by
  refine ⟨?_, ?_, ?_⟩
  · intro fuel s front grp hs
    rw [mergeLoop, hs]
    rw [List.getLast?_concat, List.dropLast_concat]
  · intro s pre
    induction pre generalizing s with
    | nil =>
      intro post p g' ns pairs _ hp
      rw [List.nil_append, groupStep, hp]
      simp
    | cons q pre ih =>
      intro post p g' ns pairs hpre hp
      have hq : planStep G s.g q = PlanOutcome.skipped :=
        hpre q (List.mem_cons_self q pre)
      rw [List.cons_append, groupStep, hq]
      exact ih s post p g' ns pairs
        (fun r hr => hpre r (List.mem_cons_of_mem q hr)) hp
  · intro s plans
    induction plans generalizing s with
    | nil => rfl
    | cons p rest ih =>
      rw [groupStep]
      cases hps : planStep G s.g p with
      | skipped => exact ih s
      | failed pr => exact ih _
      | replaced g' ns pairs => exact ih _

/-- Witness for C2 (amended): the LIFO pop, the clean-prefix
short-circuit on `planB`, and the dead merge counter after a failure,
each at a concrete input. -/
theorem merge_group_processing_witness :
    mergeLoop mergeC2G 1 mergeC2Init =
      mergeLoop mergeC2G 0
        (groupStep mergeC2G { mergeC2Init with sched := [] }
          [planA, planB, planC] true) ∧
    groupStep mergeC2G mergeC2Init ([] ++ planB :: [planC]) true =
      { mergeC2Init with
        g := 1
        sched := mergeC2Init.sched ++ []
        attempts := mergeC2Init.attempts ++ [(planB, none)]
        nbMerged := mergeC2Init.nbMerged + [((3 : Nat), (4 : Nat))].length
        nbConstant := mergeC2Init.nbConstant } ∧
    (groupStep mergeC2G mergeC2Init [planA, planB, planC] false).nbMerged =
      mergeC2Init.nbMerged := by
  refine ⟨?_, ?_, ?_⟩
  · exact (merge_group_processing mergeC2G).1 0 mergeC2Init []
      [planA, planB, planC] rfl
  · have h := (merge_group_processing mergeC2G).2.1 mergeC2Init [] [planC]
      planB 1 [] [(3, 4)] (fun q hq => by cases hq) (by rfl)
    rw [h]
    decide
  · exact (merge_group_processing mergeC2G).2.2 mergeC2Init
      [planA, planB, planC]

/-! ## Claim C3 — cleanup pass shape -/

/-- Counterexample to C3: a cleanup rewriter that still changes the graph
after the pass — `apply_cleanup` applied it exactly once (trace `[0]`),
not repeatedly until no cleanup rewriter changes the graph. -/
theorem cleanup_not_fixpoint_cex :
    (apply_cleanup cleanupsC3 stC3 false).2.2.2 = [0] ∧
    (apply_cleanup cleanupsC3 stC3 false).1.g = 1 ∧
    cleanupAtFixpoint cleanupsC3 (apply_cleanup cleanupsC3 stC3 false).1.g =
      false := by
  refine ⟨by decide, by decide, by decide⟩

/-- C3 (amended): in each cleanup pass of the `EquilibriumOptimizer`,
each cleanup rewriter is applied exactly once, in declaration order; the
pass reports whether any of them changed the graph (accumulated into the
incoming flag), and the driver re-runs whole passes at its designated
points rather than iterating inside a pass. -/
theorem cleanup_single_round {σ : Type} (cleanups : List (GOpt σ)) :
    ∀ (idx : Nat) (s : EqSt σ) (ch : Bool),
      (apply_cleanup_aux cleanups idx s ch).2.2.2 =
        List.range' idx cleanups.length ∧
      (apply_cleanup_aux cleanups idx s ch).1.g =
        cleanups.foldl (fun g c => (c g).1) s.g ∧
      (apply_cleanup_aux cleanups idx s ch).2.1 =
        (ch || (apply_cleanup_aux cleanups idx s false).2.1) := by
  induction cleanups with
  | nil =>
    intro idx s ch
    refine ⟨rfl, rfl, ?_⟩
    cases ch <;> rfl
  | cons c rest ih =>
    intro idx s ch
    have key := ih (idx + 1)
      (if (c s.g).2.1 then bumpNoCheck (3, idx) { s with g := (c s.g).1 }
        else { s with g := (c s.g).1 }) (ch || (c s.g).2.1)
    have keyf := ih (idx + 1)
      (if (c s.g).2.1 then bumpNoCheck (3, idx) { s with g := (c s.g).1 }
        else { s with g := (c s.g).1 }) (false || (c s.g).2.1)
    refine ⟨?_, ?_, ?_⟩
    · simp only [apply_cleanup_aux, key.1, List.length_cons, List.range'_succ]
    · simp only [apply_cleanup_aux, key.2.1, List.foldl_cons]
      cases hc : (c s.g).2.1 <;> simp [bumpNoCheck]
    · simp only [apply_cleanup_aux, key.2.2, keyf.2.2]
      cases ch <;> cases hc : (c s.g).2.1 <;> simp


/-! ## Claim C6 — destroy-conflict rejection -/

/-- Counterexample to C6: merging the two `mul`-like nodes `10` and `11`
is rejected by the destroy-conflict pre-check (each output is destroyed
by a client), yet `nb_fail` is `0` and the blacklist stays empty — the
pre-check `continue`s silently; only a raised `InconsistencyError`
counts a failure and blacklists the pair.  Both nodes do remain. -/
theorem merge_destroy_conflict_cex :
    ¬((mergeLoop mergeC6G 2 mergeC6Init).nbFail = 1 ∧
      (some 10, some 11) ∈ (mergeLoop mergeC6G 2 mergeC6Init).blacklist) ∧
    (mergeLoop mergeC6G 2 mergeC6Init).g = 0 ∧
    mergeC6G.inVariables 0 3 = true ∧ mergeC6G.inVariables 0 4 = true ∧
    destroyConflict mergeC6G 0 3 4 = true := by
  refine ⟨by decide, by decide, by decide, by decide, by decide⟩

/-- C6 (amended): when the graph has the destroy capability and the union
of the endpoints' clients would give two destroyers, the plan is skipped
silently — both nodes remain, and neither `nb_fail` nor the blacklist is
touched (those change only on a raised `InconsistencyError`). -/
theorem merge_destroy_conflict_skips {σ : Type} (G : MergeGraphI σ) :
    (∀ (g : σ) (t : Triple) (rest : List Triple) (n m : Nat),
      t.mode = MergeMode.merge →
      G.inVariables g t.old = true →
      G.inVariables g t.new = true →
      G.owner t.old = some n →
      G.owner t.new = some m →
      ((assertRemovedInputs G g n).zip (assertRemovedInputs G g m)).all
        (fun p => p.1 == p.2) = true →
      G.hasDestroyHandler = true →
      destroyConflict G g t.old t.new = true →
      planStep G g (t :: rest) = PlanOutcome.skipped) ∧
    (∀ (s : MergeState σ) (grp : List Plan),
      (∀ p ∈ grp, planStep G s.g p = PlanOutcome.skipped) →
      groupStep G s grp true = s) := by
  constructor
  · intro g t rest n m hmode hv hc hn hm him hdh hdc
    rw [planStep]
    simp [hv, hc, hn, hm, hmode, him, hdh, hdc]
  · intro s grp
    induction grp with
    | nil => intro _; rfl
    | cons p rest ih =>
      intro hall
      have hp : planStep G s.g p = PlanOutcome.skipped :=
        hall p (List.mem_cons_self p rest)
      rw [groupStep, hp]
      exact ih (fun q hq => hall q (List.mem_cons_of_mem p hq))

/-- Witness for C6 (amended): the destroy-conflicting plan of `mergeC6G`
is skipped and the whole group leaves the merge state unchanged. -/
theorem merge_destroy_conflict_skips_witness :
    planStep mergeC6G 0 ((⟨3, 4, MergeMode.merge⟩ : Triple) :: []) =
      PlanOutcome.skipped ∧
    groupStep mergeC6G mergeC6Init [planD] true = mergeC6Init := by
  have h1 := (merge_destroy_conflict_skips mergeC6G).1 0
    ⟨3, 4, MergeMode.merge⟩ [] 10 11 rfl rfl rfl rfl rfl (by decide) rfl
    (by decide)
  refine ⟨h1, ?_⟩
  exact (merge_destroy_conflict_skips mergeC6G).2 mergeC6Init [planD]
    (fun p hp => by
      rw [List.mem_singleton] at hp
      rw [hp]
      exact h1)

/-! ## Claim C7 — blacklist monotonicity -/

/-- Group processing only appends to the attempts trace, and extends the
blacklist by exactly the failure records of the new attempts. -/
theorem groupStep_extends {σ : Type} (G : MergeGraphI σ) :
    ∀ (plans : List Plan) (s : MergeState σ) (success : Bool),
      ∃ newA, (groupStep G s plans success).attempts = s.attempts ++ newA ∧
        (groupStep G s plans success).blacklist =
          s.blacklist ++ newA.filterMap (fun a => a.2) := by
  intro plans
  induction plans with
  | nil =>
    intro s success
    exact ⟨[], by simp [groupStep], by simp [groupStep]⟩
  | cons p rest ih =>
    intro s success
    cases hps : planStep G s.g p with
    | skipped =>
      obtain ⟨na, h1, h2⟩ := ih s success
      exact ⟨na, by simp only [groupStep, hps]; exact h1,
        by simp only [groupStep, hps]; exact h2⟩
    | failed pr =>
      obtain ⟨na, h1, h2⟩ := ih
        { s with
          nbFail := s.nbFail + 1
          blacklist := s.blacklist ++ [pr]
          attempts := s.attempts ++ [(p, some pr)] } false
      refine ⟨(p, some pr) :: na, ?_, ?_⟩
      · simp only [groupStep, hps]
        rw [h1]
        simp
      · simp only [groupStep, hps]
        rw [h2]
        simp [List.filterMap_cons]
    | replaced g' ns pairs =>
      cases success with
      | true =>
        refine ⟨[(p, none)], ?_, ?_⟩
        · simp [groupStep, hps]
        · simp [groupStep, hps, List.filterMap_cons]
      | false =>
        obtain ⟨na, h1, h2⟩ := ih
          { s with
            g := g'
            sched := s.sched ++ ns
            attempts := s.attempts ++ [(p, none)] } false
        have hg : groupStep G s (p :: rest) false =
            groupStep G
              { s with
                g := g'
                sched := s.sched ++ ns
                attempts := s.attempts ++ [(p, none)] } rest false := by
          simp [groupStep, hps]
        refine ⟨(p, none) :: na, ?_, ?_⟩
        · rw [hg, h1]
          simp
        · rw [hg, h2]
          simp [List.filterMap_cons]

/-- The merge loop only appends to the attempts trace, and extends the
blacklist by exactly the failure records of the new attempts. -/
theorem mergeLoop_extends {σ : Type} (G : MergeGraphI σ) :
    ∀ (fuel : Nat) (s : MergeState σ),
      ∃ newA, (mergeLoop G fuel s).attempts = s.attempts ++ newA ∧
        (mergeLoop G fuel s).blacklist =
          s.blacklist ++ newA.filterMap (fun a => a.2) := by
  intro fuel
  induction fuel with
  | zero => exact fun s => ⟨[], by simp [mergeLoop], by simp [mergeLoop]⟩
  | succ f ih =>
    intro s
    rw [mergeLoop]
    cases hl : s.sched.getLast? with
    | none => exact ⟨[], by simp, by simp⟩
    | some grp =>
      obtain ⟨na1, ha1, hb1⟩ := groupStep_extends G grp
        { s with sched := s.sched.dropLast } true
      obtain ⟨na2, ha2, hb2⟩ :=
        ih (groupStep G { s with sched := s.sched.dropLast } grp true)
      refine ⟨na1 ++ na2, ?_, ?_⟩
      · rw [ha2, ha1]
        simp
      · rw [hb2, hb1]
        simp [List.filterMap_append]

/-- C7: during one `MergeOptimizer.apply` pass the blacklist only grows —
the run's blacklist is the initial one extended by exactly the recorded
`InconsistencyError` failures, nothing is removed mid-pass — and `apply`
returns with the blacklist cleared. -/
theorem merge_blacklist_monotone_cleared {σ : Type} (G : MergeGraphI σ)
    (fuel : Nat) (s : MergeState σ) :
    (∃ newA, (mergeLoop G fuel s).attempts = s.attempts ++ newA ∧
      (mergeLoop G fuel s).blacklist =
        s.blacklist ++ newA.filterMap (fun a => a.2)) ∧
    (mergeApply G fuel s).blacklist = [] :=
  ⟨mergeLoop_extends G fuel s, rfl⟩



/-! ## Claim C8 — constant canonicalization -/

/-- Setting a key in an association list makes it readable. -/
theorem alookup_aset_self {α β : Type} [DecidableEq α] :
    ∀ (l : List (α × β)) (k : α) (v : β), alookup (aset l k v) k = some v := by
  intro l
  induction l with
  | nil => intro k v; simp [aset, alookup]
  | cons e rest ih =>
    intro k v
    by_cases hk : e.1 = k
    · simp [aset, alookup, hk]
    · simp only [aset]
      rw [if_neg hk]
      simp only [alookup]
      rw [if_neg hk]
      exact ih k v

/-- C8: the first constant carrying a signature becomes the canonical
value; a later constant with an equal signature is scheduled to be
replaced by the incumbent, and its name (when set) is copied onto the
incumbent; running the merger on the two-constant graph `mergeC8G`
leaves exactly one of the two constants, shared by both nodes, with
`nb_constant = 1`, `nb_merged = 1`, `nb_fail = 0`. -/
theorem merge_constants_canonical :
    (∀ (sigOf : Nat → Nat) (st : MFState) (names : List (Nat × String))
      (c : Nat),
      st.seenConstants.contains c = false →
      alookup st.constSigInv (sigOf c) = none →
      process_constant sigOf st names c =
        ({ st with
            constSig := aset st.constSig c (sigOf c)
            constSigInv := aset st.constSigInv (sigOf c) c
            seenConstants := st.seenConstants ++ [c] }, names)) ∧
    (∀ (sigOf : Nat → Nat) (st : MFState) (names : List (Nat × String))
      (c other : Nat),
      st.seenConstants.contains c = false →
      alookup st.constSigInv (sigOf c) = some other →
      (process_constant sigOf st names c).1 =
        { st with
            scheduled :=
              st.scheduled ++ [[[⟨c, other, MergeMode.merge⟩]]] } ∧
      ∀ nm, alookup names c = some nm →
        alookup (process_constant sigOf st names c).2 other = some nm) ∧
    (c8Run.g = 1 ∧ mergeC8G.inVariables c8Run.g 1 = true ∧
      mergeC8G.inVariables c8Run.g 2 = false ∧
      mergeC8G.nodeInputs c8Run.g 10 = mergeC8G.nodeInputs c8Run.g 11 ∧
      c8Run.nbConstant = 1 ∧ c8Run.nbMerged = 1 ∧ c8Run.nbFail = 0 ∧
      alookup c8AfterImports.2 1 = some "w") := by
  refine ⟨?_, ?_, ?_⟩
  · intro sigOf st names c h1 h2
    have h1' : c ∉ st.seenConstants := by simpa using h1
    unfold process_constant
    rw [if_neg (by simpa using h1')]
    simp [h2]
  · intro sigOf st names c other h1 h2
    have h1' : c ∉ st.seenConstants := by simpa using h1
    constructor
    · unfold process_constant
      rw [if_neg (by simpa using h1')]
      simp [h2]
    · intro nm hnm
      unfold process_constant
      rw [if_neg (by simpa using h1')]
      simp [h2, hnm, alookup_aset_self]
  · exact ⟨by decide, by decide, by decide, by decide, by decide, by decide,
      by decide, by decide⟩

/-- Witness for C8: recording constant `1` as canonical, then scheduling
constant `2` against it with its name copied. -/
theorem merge_constants_canonical_witness :
    process_constant c8SigOf MFState.empty c8Names 1 =
      ({ MFState.empty with
          constSig := aset MFState.empty.constSig 1 7
          constSigInv := aset MFState.empty.constSigInv 7 1
          seenConstants := MFState.empty.seenConstants ++ [1] }, c8Names) ∧
    (process_constant c8SigOf
        (process_constant c8SigOf MFState.empty c8Names 1).1 c8Names 2).1 =
      { (process_constant c8SigOf MFState.empty c8Names 1).1 with
          scheduled :=
            (process_constant c8SigOf MFState.empty c8Names 1).1.scheduled ++
              [[[⟨2, 1, MergeMode.merge⟩]]] } ∧
    alookup (process_constant c8SigOf
        (process_constant c8SigOf MFState.empty c8Names 1).1 c8Names 2).2 1 =
      some "w" := by
  have h1 := (merge_constants_canonical).1 c8SigOf MFState.empty c8Names 1
    (by decide) (by decide)
  have h2 := (merge_constants_canonical).2.1 c8SigOf
    (process_constant c8SigOf MFState.empty c8Names 1).1 c8Names 2 1
    (by decide) (by decide)
  exact ⟨h1, h2.1, h2.2 "w" (by decide)⟩

/-! ## Claim C1 — equilibrium use-ratio bound -/

/-- Counterexample to C1: with one global rewriter on a one-node graph
and `max_use_ratio = 3`, the completed run (stable under more fuel)
performs `4` successful rewriter applications, exceeding the claimed
bound `ceil(max_nodes * max_use_ratio) = 3`: the `max_use` check only
latches an abort flag that is consulted between iterations, after the
exceeding application has already run. -/
theorem equilibrium_bound_exceeded_cex :
    eqApply eqC1 2 10 0 = eqApply eqC1 2 20 0 ∧
    (eqApply eqC1 2 10 0).applications = 4 ∧
    (eqApply eqC1 2 10 0).maxNbNodes = 1 ∧
    eqC1.rat = 3 ∧
    ¬((eqApply eqC1 2 10 0).applications ≤
        (eqApply eqC1 2 10 0).maxNbNodes * eqC1.rat) := by
  refine ⟨by decide, by decide, by decide, by decide, by decide⟩

/-- The cleanup pass never clears the abort flag. -/
theorem apply_cleanup_abort_mono {σ : Type} (cl : List (GOpt σ)) :
    ∀ (idx : Nat) (s : EqSt σ) (ch : Bool), s.maxUseAbort = true →
      (apply_cleanup_aux cl idx s ch).1.maxUseAbort = true := by
  induction cl with
  | nil => intro idx s ch h; exact h
  | cons c rest ih =>
    intro idx s ch h
    simp only [apply_cleanup_aux]
    apply ih
    cases hc : (c s.g).2.1 <;> simp [bumpNoCheck, h]

/-- The global/final pass never clears the abort flag. -/
theorem globalPassAux_abort_mono {σ : Type} (rat kind : Nat)
    (gopts : List (GOpt σ)) :
    ∀ (idx : Nat) (s : EqSt σ) (ch : Bool), s.maxUseAbort = true →
      (globalPassAux rat kind gopts idx s ch).1.maxUseAbort = true := by
  induction gopts with
  | nil => intro idx s ch h; exact h
  | cons o rest ih =>
    intro idx s ch h
    simp only [globalPassAux]
    apply ih
    cases hc : (o s.g).2.1 <;> simp [bumpChecked, h]

/-- The per-node local loop never clears the abort flag. -/
theorem nodeLoop_abort_mono {σ : Type} (E : EqI σ) (node : Nat) :
    ∀ (lopts : List Nat) (s : EqSt σ) (q : List Nat) (ch : Bool),
      s.maxUseAbort = true →
      (nodeLoop E node lopts s q ch).1.maxUseAbort = true := by
  intro lopts
  induction lopts with
  | nil => intro s q ch h; exact h
  | cons l rest ih =>
    intro s q ch h
    cases hp : E.localProcess l s.g node with
    | none =>
      simp only [nodeLoop, hp]
      exact ih s q ch h
    | some r =>
      simp only [nodeLoop, hp, apply_cleanup]
      have hcl : (apply_cleanup_aux E.cleanups 0
          { s with
            g := r.1
            counts := aset s.counts (1, l)
              ((alookup s.counts (1, l)).getD 0 + 1)
            applications := s.applications + 1 } true).1.maxUseAbort = true :=
        apply_cleanup_abort_mono E.cleanups 0 _ true h
      split
      · apply ih
        simp [hcl]
      · simp [hcl]

/-- The worklist loop never clears the abort flag. -/
theorem localLoop_abort_mono {σ : Type} (E : EqI σ) :
    ∀ (fuel : Nat) (q : List Nat) (s : EqSt σ) (ch : Bool),
      s.maxUseAbort = true →
      (localLoop E fuel q s ch).1.maxUseAbort = true := by
  intro fuel
  induction fuel with
  | zero => intro q s ch h; exact h
  | succ f ih =>
    intro q s ch h
    cases q with
    | nil => exact h
    | cons node t =>
      simp only [localLoop]
      split
      · exact ih _ _ _
          (nodeLoop_abort_mono E node (E.trackersOf node) s t ch h)
      · exact ih t s ch h

/-- A whole iteration never clears the abort flag. -/
theorem eqIteration_abort_mono {σ : Type} (E : EqI σ) (lfuel : Nat)
    (s : EqSt σ) (h : s.maxUseAbort = true) :
    (eqIteration E lfuel s).1.maxUseAbort = true := by
  simp only [eqIteration, apply_cleanup]
  apply apply_cleanup_abort_mono
  apply globalPassAux_abort_mono
  apply localLoop_abort_mono
  apply apply_cleanup_abort_mono
  apply globalPassAux_abort_mono
  exact h

/-- C1 (amended): the equilibrium driver checks `max_use` only as
successes are counted, latching a persistent abort flag; once the flag
is set no further iteration begins (the flag never resets), but the
applications of the iteration already under way are not limited — so the
total application count is not bounded by
`ceil(max_nodes * max_use_ratio)`. -/
theorem equilibrium_abort_latch {σ : Type} (E : EqI σ) (lfuel : Nat) :
    (∀ (fuel : Nat) (s : EqSt σ) (ch : Bool), s.maxUseAbort = true →
      eqLoop E lfuel fuel s ch = s) ∧
    (∀ s : EqSt σ, s.maxUseAbort = true →
      (eqIteration E lfuel s).1.maxUseAbort = true) ∧
    (∀ (rat : Nat) (key : Nat × Nat) (s : EqSt σ),
      (alookup s.counts key).getD 0 + 1 > s.maxNbNodes * rat →
      (bumpChecked rat key s).maxUseAbort = true) := by
  refine ⟨?_, eqIteration_abort_mono E lfuel, ?_⟩
  · intro fuel s ch h
    cases fuel with
    | zero => rfl
    | succ f => simp [eqLoop, h]
  · intro rat key s h
    simp [bumpChecked, h]

/-- Witness for C1 (amended): the latch applied to concrete aborted
states. -/
theorem equilibrium_abort_latch_witness :
    eqLoop eqC1 2 5 ⟨0, [], 1, true, 0⟩ true = ⟨0, [], 1, true, 0⟩ ∧
    (eqIteration eqC1 2 ⟨0, [], 1, true, 0⟩).1.maxUseAbort = true ∧
    (bumpChecked 3 (0, 0) (⟨0, [((0, 0), 3)], 1, false, 3⟩ : EqSt Nat)
      ).maxUseAbort = true := by
  refine ⟨(equilibrium_abort_latch eqC1 2).1 5 _ true rfl,
    (equilibrium_abort_latch eqC1 2).2.1 _ rfl,
    (equilibrium_abort_latch eqC1 2).2.2 3 (0, 0) _ (by decide)⟩



/-! ## Claim C9 — TopoOptimizer visit discipline -/

/-- Counterexample to C9, in both directions: in the `out_to_in` pass
over `topoC9`, rewriting the output node `1` prunes node `0` before its
dequeue, so node `0` — present in the initial graph and initially
resident — is never processed; and in the `in_to_out` pass over
`topoC9b`, rewriting node `1` re-imports the already processed node `0`
(the worklist append has no dedup), so node `0` is processed twice. -/
theorem topo_pruned_node_skipped_cex :
    topoC9.toposort 0 = [0, 1] ∧
    topoC9.resident 0 0 = true ∧
    (topoApply topoC9 true false 4 0).processed = [1] ∧
    ¬((topoApply topoC9 true false 4 0).processed.count 0 = 1) ∧
    (topoApply topoC9b false false 4 0).processed = [0, 1, 0] ∧
    ¬((topoApply topoC9b false false 4 0).processed.count 0 = 1) := by
  refine ⟨by decide, by decide, by decide, by decide, by decide, by decide⟩

/-- The worklist loop processes exactly the queued nodes, in order, when
no rewrite prunes a queued node or imports new ones. -/
theorem topoLoop_processes {σ : Type} (T : TopoI σ) (ign : Bool)
    (hpres : ∀ (g : σ) (n : Nat) (g' : σ) (imp : List Nat),
      T.process g n = some (g', imp) →
      imp = [] ∧ ∀ m, m ≠ n → T.resident g' m = T.resident g m) :
    ∀ (q : List Nat) (s : TopoSt σ), q.Nodup →
      (∀ n ∈ q, T.resident s.g n = true) →
      (topoLoop T false ign q.length q s).processed = s.processed ++ q := by
  intro q
  induction q with
  | nil => intro s _ _; simp [topoLoop]
  | cons h t ih =>
    intro s hnd hres
    obtain ⟨hht, hndt⟩ := List.nodup_cons.mp hnd
    have hh : T.resident s.g h = true := hres h (List.mem_cons_self h t)
    simp only [List.length_cons, topoLoop]
    cases hp : T.process s.g h with
    | none =>
      have hrec := ih ⟨s.g, s.nb, s.processed ++ [h]⟩ hndt
        (fun n hn => hres n (List.mem_cons_of_mem h hn))
      simp [hh, hp, hrec]
    | some r =>
      obtain ⟨himp, hresp⟩ := hpres s.g h r.1 r.2 hp
      have hrec := ih ⟨r.1, s.nb + 1, s.processed ++ [h]⟩ hndt
        (fun n hn => by
          have hne : n ≠ h := fun he => hht (he ▸ hn)
          rw [hresp n hne]
          exact hres n (List.mem_cons_of_mem h hn))
      simp [hh, hp, himp, ite_self, hrec]

/-- When no applied rewrite prunes a not-yet-dequeued node or imports
new nodes, `TopoOptimizer.apply` (`in_to_out`) processes every node of
the initial toposort exactly once, in order. -/
theorem topo_processes_initial_when_undisturbed {σ : Type} (T : TopoI σ) (ign : Bool)
    (g₀ : σ) (hnd : (T.toposort g₀).Nodup)
    (hres : ∀ n ∈ T.toposort g₀, T.resident g₀ n = true)
    (hpres : ∀ (g : σ) (n : Nat) (g' : σ) (imp : List Nat),
      T.process g n = some (g', imp) →
      imp = [] ∧ ∀ m, m ≠ n → T.resident g' m = T.resident g m) :
    (topoApply T false ign ((T.toposort g₀).length) g₀).processed =
      T.toposort g₀ := by
  have := topoLoop_processes T ign hpres (T.toposort g₀) ⟨g₀, 0, []⟩ hnd hres
  simpa [topoApply] using this


/-- With fresh imports, the worklist loop never processes a node twice:
`ν` is a frontier on node identifiers — every node on the trace or in
the queue lies below it, each rewrite only imports duplicate-free nodes
at or above the current frontier, and the frontier never decreases.
Pruning is unrestricted: the residency test may change arbitrarily. -/
theorem topoLoop_processed_nodup {σ : Type} (T : TopoI σ) (ν : σ → Nat)
    (hproc : ∀ (g : σ) (n : Nat) (g' : σ) (imp : List Nat),
      T.process g n = some (g', imp) →
      imp.Nodup ∧ ν g ≤ ν g' ∧ (∀ m ∈ imp, ν g ≤ m ∧ m < ν g')) :
    ∀ (fuel : Nat) (q : List Nat) (s : TopoSt σ),
      (s.processed ++ q).Nodup →
      (∀ n ∈ s.processed ++ q, n < ν s.g) →
      (topoLoop T false false fuel q s).processed.Nodup := by
  intro fuel
  induction fuel with
  | zero =>
    intro q s hnd _
    exact (List.nodup_append.mp hnd).1
  | succ f ih =>
    intro q s hnd hlt
    cases q with
    | nil =>
      simp only [topoLoop]
      exact (List.nodup_append.mp hnd).1
    | cons n rest =>
      by_cases hr : T.resident s.g n = true
      · cases hp : T.process s.g n with
        | none =>
          have hstep : topoLoop T false false (f + 1) (n :: rest) s =
              topoLoop T false false f rest ⟨s.g, s.nb, s.processed ++ [n]⟩ := by
            simp [topoLoop, hr, hp]
          rw [hstep]
          apply ih rest ⟨s.g, s.nb, s.processed ++ [n]⟩
          · simpa [List.append_assoc] using hnd
          · intro x hx
            apply hlt
            simpa [List.append_assoc] using hx
        | some r =>
          obtain ⟨hindn, hle, hfresh⟩ := hproc s.g n r.1 r.2 hp
          have hstep : topoLoop T false false (f + 1) (n :: rest) s =
              topoLoop T false false f
                (rest ++ r.2.filter (fun m => m ≠ n))
                ⟨r.1, s.nb + 1, s.processed ++ [n]⟩ := by
            simp [topoLoop, hr, hp]
          rw [hstep]
          apply ih (rest ++ r.2.filter (fun m => m ≠ n))
            ⟨r.1, s.nb + 1, s.processed ++ [n]⟩
          · have hrearr :
                (s.processed ++ [n]) ++ (rest ++ r.2.filter (fun m => m ≠ n)) =
                  (s.processed ++ n :: rest) ++ r.2.filter (fun m => m ≠ n) := by
              simp [List.append_assoc]
            show ((s.processed ++ [n]) ++
              (rest ++ r.2.filter (fun m => m ≠ n))).Nodup
            rw [hrearr]
            refine List.nodup_append.mpr ⟨hnd, hindn.filter _, ?_⟩
            intro a ha hb
            have hlta : a < ν s.g := hlt a ha
            have hge : ν s.g ≤ a :=
              (hfresh a (List.mem_of_mem_filter hb)).1
            exact absurd hlta (by omega)
          · intro x hx
            have hx' : x ∈ (s.processed ++ n :: rest) ++
                r.2.filter (fun m => m ≠ n) := by
              simpa [List.append_assoc] using hx
            rcases List.mem_append.mp hx' with hx1 | hx2
            · exact Nat.lt_of_lt_of_le (hlt x hx1) hle
            · exact (hfresh x (List.mem_of_mem_filter hx2)).2
      · have hr' : T.resident s.g n = false := by
          cases hres : T.resident s.g n
          · rfl
          · exact absurd hres hr
        have hstep : topoLoop T false false (f + 1) (n :: rest) s =
            topoLoop T false false f rest s := by
          simp [topoLoop, hr']
        rw [hstep]
        apply ih rest s
        · exact hnd.sublist
            ((List.sublist_cons_self n rest).append_left s.processed)
        · intro x hx
          apply hlt
          rcases List.mem_append.mp hx with hx1 | hx2
          · exact List.mem_append.mpr (Or.inl hx1)
          · exact List.mem_append.mpr (Or.inr (List.mem_cons_of_mem n hx2))

/-- C9 (amended): a dequeued node is processed iff it is still in the
graph — a node pruned before its dequeue is skipped, and a node
re-imported after being processed is processed again, so the original
exactly-once claim fails in both directions (see the counterexample).
What holds: when every rewrite imports only duplicate-free fresh nodes
(identifiers at or above a never-decreasing frontier), no node — of the
initial graph or imported during the pass — is processed twice, with
pruning unrestricted; and when no rewrite imports nodes or prunes a
node other than the one being rewritten, every initial-graph node is
processed exactly once, in toposort order. -/
theorem topo_visit_discipline {σ : Type} (T : TopoI σ) :
    (∀ (ν : σ → Nat),
      (∀ (g : σ) (n : Nat) (g' : σ) (imp : List Nat),
        T.process g n = some (g', imp) →
        imp.Nodup ∧ ν g ≤ ν g' ∧ (∀ m ∈ imp, ν g ≤ m ∧ m < ν g')) →
      ∀ (fuel : Nat) (q : List Nat) (s : TopoSt σ),
        (s.processed ++ q).Nodup →
        (∀ n ∈ s.processed ++ q, n < ν s.g) →
        (topoLoop T false false fuel q s).processed.Nodup) ∧
    (∀ (ign : Bool) (g₀ : σ),
      (T.toposort g₀).Nodup →
      (∀ n ∈ T.toposort g₀, T.resident g₀ n = true) →
      (∀ (g : σ) (n : Nat) (g' : σ) (imp : List Nat),
        T.process g n = some (g', imp) →
        imp = [] ∧ ∀ m, m ≠ n → T.resident g' m = T.resident g m) →
      (topoApply T false ign ((T.toposort g₀).length) g₀).processed =
        T.toposort g₀) :=
  ⟨fun ν hproc => topoLoop_processed_nodup T ν hproc,
   fun ign g₀ h1 h2 h3 =>
     topo_processes_initial_when_undisturbed T ign g₀ h1 h2 h3⟩

/-- Witness for C9 (amended): on `topoWimp`, rewriting node `1` imports
the fresh node `2` (the state is the identifier frontier), the run
processes `[0, 1, 2]`, and the theorem yields its duplicate-freedom; on
`topoW`, whose rewrite imports and prunes nothing, both nodes are
processed exactly once, in order. -/
theorem topo_visit_discipline_witness :
    (topoLoop topoWimp false false 3 [0, 1]
      (⟨2, 0, []⟩ : TopoSt Nat)).processed.Nodup ∧
    (topoLoop topoWimp false false 3 [0, 1]
      (⟨2, 0, []⟩ : TopoSt Nat)).processed = [0, 1, 2] ∧
    (topoApply topoW false false ((topoW.toposort 0).length) 0).processed =
      topoW.toposort 0 := by
  refine ⟨?_, by decide, ?_⟩
  · refine (topo_visit_discipline topoWimp).1 (fun g => g) ?_ 3 [0, 1]
      ⟨2, 0, []⟩ (by decide) (by decide)
    intro g n g' imp hp
    by_cases hn : n = 1
    · subst hn
      simp [topoWimp] at hp
      obtain ⟨hg, hi⟩ := hp
      have hg2 : g' = g + 1 := by omega
      have hi2 : imp = [g] := by
        first
        | exact hi
        | exact hi.symm
      subst hg2
      subst hi2
      refine ⟨List.nodup_singleton g, Nat.le_succ g, ?_⟩
      intro m hm
      rw [List.mem_singleton] at hm
      subst hm
      exact ⟨Nat.le_refl m, Nat.lt_succ_self m⟩
    · rw [show topoWimp.process g n = none by simp [topoWimp, hn]] at hp
      cases hp
  · exact (topo_visit_discipline topoW).2 false 0 (by decide) (by decide)
      (fun g n g' imp hp => by
        by_cases hn : n = 0
        · subst hn
          simp [topoW] at hp
          exact ⟨hp.2, fun m hm => rfl⟩
        · rw [show topoW.process g n = none by simp [topoW, hn]] at hp
          cases hp)


/-! ## Claim C10 — tracker query caching -/

set_option maxRecDepth 60000 in
/-- Counterexample to C10: after op `0`'s cached entry is evicted by 128
queries of other ops, a later `get_trackers(0)` recomputes and returns
the rewriter registered after the first query — the result is not the
cached one. -/
theorem tracker_lru_eviction_cex :
    c10First.1 = [1] ∧ c10Second.1 = [1, 2] ∧ ([1, 2] : List Nat) ≠ [1] := by
  refine ⟨by decide, by decide, by decide⟩

/-- Registration never touches the `get_trackers` cache. -/
theorem add_tracker_cache :
    ∀ (tracks : Option (List TrackSpec)) (t : Tracker) (rw : Nat),
      (add_tracker t rw tracks).cache = t.cache := by
  intro tracks
  cases tracks with
  | none => intro t rw; rfl
  | some ts =>
    induction ts with
    | nil => intro t rw; rfl
    | cons spec rest ih =>
      intro t rw
      have h1 : (add_tracker_one t rw spec).cache = t.cache := by
        cases spec <;> rfl
      calc (add_tracker t rw (some (spec :: rest))).cache
          = (add_tracker (add_tracker_one t rw spec) rw (some rest)).cache := rfl
        _ = (add_tracker_one t rw spec).cache := ih (add_tracker_one t rw spec) rw
        _ = t.cache := h1

/-- C10 (amended): while an op's entry is in the `lru_cache` (capacity
128), `get_trackers` returns the cached list and keeps the entry, and
`add_tracker` never touches the cache — so rewriters registered after a
query are not returned for that op until its entry is evicted. -/
theorem tracker_cached_result_stable (cfg : TrackerCfg) (t : Tracker)
    (op : Nat) (v : List Nat) (h : alookup t.cache op = some v) :
    (get_trackers cfg t op).1 = v ∧
    alookup (get_trackers cfg t op).2.cache op = some v ∧
    (∀ (rw : Nat) (tracks : Option (List TrackSpec)),
      (add_tracker t rw tracks).cache = t.cache) := by
  refine ⟨?_, ?_, fun rw tracks => add_tracker_cache tracks t rw⟩
  · simp [get_trackers, h]
  · simp [get_trackers, h, alookup]

/-- Witness for C10 (amended): a concrete cached entry is returned and
kept. -/
theorem tracker_cached_result_stable_witness :
    (get_trackers cfgC10 t10w 5).1 = [9] ∧
    alookup (get_trackers cfgC10 t10w 5).2.cache 5 = some [9] ∧
    (∀ (rw : Nat) (tracks : Option (List TrackSpec)),
      (add_tracker t10w rw tracks).cache = t10w.cache) :=
  tracker_cached_result_stable cfgC10 t10w 5 [9] (by decide)

/-! ## Claim C4 — PatternSub match conditions -/

/-- Counterexample to C4: on `pgC4` the root operator matches,
unification succeeds, there are no constraints and no intermediate
values inside the matched subgraph, yet `transform` refuses the node
because the cone variable `101` — outside the matched subgraph — has two
clients; on `pgC4b`, identical except that `101` is single-client, the
same `transform` succeeds.  Values outside the matched subgraph do
affect the single-client condition. -/
theorem pattern_outside_subgraph_cex :
    patTransform pgC4 (fun _ _ => true) (fun _ _ => 0) inPC4 outPC4 7 10 1 =
      none ∧
    pgC4.nodeOp 1 = 7 ∧
    unifyP pgC4 (fun _ _ => true) inPC4 104 [] =
      some [("x", 102), ("y", 103)] ∧
    patInnerVars pgC4 inPC4 104 = [] ∧
    pgC4.clientsLen 102 = 1 ∧
    pgC4.clientsLen 101 = 2 ∧ pgC4b.clientsLen 101 = 1 ∧
    patTransform pgC4b (fun _ _ => true) (fun _ _ => 0) inPC4 outPC4 7 10 1 =
      some (RVal.existing 102) := by
  refine ⟨by rfl, by decide, by rfl, by decide, by decide, by decide,
    by decide, by rfl⟩

/-- C4 (amended): `transform` matches a node only if its operator equals
the root operator, unification succeeds, and every variable of the whole
ancestor cone `vars_between(fgraph.inputs, node.outputs)` other than the
graph inputs has at most one client — the single-client pre-check ranges
over the entire cone, not just the matched subgraph. -/
theorem pattern_transform_only_if (P : PGraph) (csat : Nat → Nat → Bool)
    (mk : Nat → List Nat → Nat) (inP outP : Pattern)
    (rootOp fuel node : Nat) (r : RVal)
    (h : patTransform P csat mk inP outP rootOp fuel node = some r) :
    P.nodeOp node = rootOp ∧
    (∃ s, unifyP P csat inP ((P.nodeOutputs node).headD 0) [] = some s) ∧
    (∀ v ∈ vars_between P fuel (P.nodeOutputs node),
      P.inputs.contains v = false → P.clientsLen v ≤ 1) := by
  simp only [patTransform] at h
  cases hpre : (vars_between P fuel (P.nodeOutputs node)).any
      (fun v => !(P.inputs.contains v) && decide (P.clientsLen v > 1)) with
  | true =>
    rw [hpre] at h
    simp at h
  | false =>
    rw [hpre] at h
    simp only [Bool.false_eq_true, if_false] at h
    by_cases hop : P.nodeOp node = rootOp
    · refine ⟨hop, ?_, ?_⟩
      · rw [if_neg (by simp [hop])] at h
        cases hu : unifyP P csat inP ((P.nodeOutputs node).headD 0) [] with
        | none => rw [hu] at h; cases h
        | some s => exact ⟨s, rfl⟩
      · intro v hv hcont
        have hall : (!(P.inputs.contains v) &&
            decide (P.clientsLen v > 1)) = false := by
          simpa using List.any_eq_false.mp hpre v hv
        rw [hcont] at hall
        simp at hall
        omega
    · rw [if_pos (by simp [hop])] at h
      cases h

/-- Witness for C4 (amended): the conditions extracted from the
successful match on `pgC4b`. -/
theorem pattern_transform_only_if_witness :
    pgC4b.nodeOp 1 = 7 ∧
    (∃ s, unifyP pgC4b (fun _ _ => true) inPC4
      ((pgC4b.nodeOutputs 1).headD 0) [] = some s) ∧
    (∀ v ∈ vars_between pgC4b 10 (pgC4b.nodeOutputs 1),
      pgC4b.inputs.contains v = false → pgC4b.clientsLen v ≤ 1) :=
  pattern_transform_only_if pgC4b (fun _ _ => true) (fun _ _ => 0) inPC4
    outPC4 7 10 1 (RVal.existing 102) (by rfl)



end AesaraOpt
